import Mathlib

/-!
Verification of the `ga` library (serialization codec, shared-memory /
redis key-value stores, pub/sub IPC) against its natural-language
specification.  The Python sources are shallowly embedded: byte strings
become `List Nat`, Python dictionaries become insertion-ordered
association lists, and the external compression libraries are abstracted
as parameters together with the round-trip laws the code relies on.
-/

set_option autoImplicit false

namespace GA

/-! ## Glob pattern matching

`SharedMemory.scan_iter` filters keys with `fnmatch.fnmatchcase`, and
`RedisSharedMemory.keys`/`clear` hand glob patterns to the redis server.
Both matchers are modelled by tokenizing the pattern (`*`, `?`, literal
characters and `[...]` character sets) and running a common backtracking
matcher over the token list.  The two tokenizers mirror the respective
libraries: Python's `fnmatch` uses `!` for set negation, has no escape
character and treats an unterminated `[` as a literal; the redis matcher
uses `^` for negation and `\` as an escape.
-/

inductive GlobTok where
  | star : GlobTok
  | anyChar : GlobTok
  | lit : Char → GlobTok
  | chSet : Bool → List Char → GlobTok
  deriving DecidableEq

/-- Character-set membership for `fnmatch`-style sets: `a-b` ranges,
everything else literal. -/
def setMatches : List Char → Char → Bool
  | a :: '-' :: b :: rest, c => (decide (a ≤ c) && decide (c ≤ b)) || setMatches rest c
  | a :: rest, c => (a == c) || setMatches rest c
  | [], _ => false

/-- Character-set membership for redis-style sets: `\x` escapes a literal
member, `a-b` is a range (bounds swapped if reversed), everything else
literal. -/
def redisSetMatches : List Char → Char → Bool
  | '\\' :: a :: rest, c => (a == c) || redisSetMatches rest c
  | a :: '-' :: b :: rest, c =>
      (decide (min a b ≤ c) && decide (c ≤ max a b)) || redisSetMatches rest c
  | a :: rest, c => (a == c) || redisSetMatches rest c
  | [], _ => false

/-- Split a character list at the first `]`, returning the part before it
and the part after it. -/
def splitAtClose : List Char → Option (List Char × List Char)
  | [] => none
  | c :: rest =>
    if c = ']' then some ([], rest)
    else (splitAtClose rest).map (fun p => (c :: p.1, p.2))

theorem splitAtClose_length (xs : List Char) :
    ∀ body rest, splitAtClose xs = some (body, rest) → rest.length < xs.length := by
  induction xs with
  | nil => intro body rest h; simp [splitAtClose] at h
  | cons c tl ih =>
    intro body rest h
    by_cases hc : c = ']'
    · simp [splitAtClose, hc] at h
      simp [← h.2]
    · simp only [splitAtClose, hc, if_false] at h
      cases h' : splitAtClose tl with
      | none => rw [h'] at h; simp at h
      | some p =>
        rw [h'] at h
        simp only [Option.map_some', Option.some.injEq, Prod.mk.injEq] at h
        have := ih p.1 p.2 (by rw [h'])
        rw [← h.2]
        simp only [List.length_cons]
        omega

/-- Body of an `fnmatch` character set: a leading `]` (after the optional
negation) is a literal member. -/
def fnSetBody (p : List Char) : Option (List Char × List Char) :=
  match p with
  | [] => none
  | c :: q =>
    if c = ']' then (splitAtClose q).map (fun r => ((']' : Char) :: r.1, r.2))
    else splitAtClose (c :: q)

/-- An `fnmatch` character set directly after `[`: optional `!` negation,
then the body up to the closing `]`. -/
def fnSetSplit (p : List Char) : Option (Bool × List Char × List Char) :=
  match p with
  | [] => none
  | c :: q =>
    if c = '!' then (fnSetBody q).map (fun r => (true, r.1, r.2))
    else (fnSetBody (c :: q)).map (fun r => (false, r.1, r.2))

theorem fnSetBody_length (p : List Char) :
    ∀ body rest, fnSetBody p = some (body, rest) → rest.length < p.length := by
  intro body rest h
  match p with
  | [] => simp [fnSetBody] at h
  | c :: q =>
    by_cases hc : c = ']'
    · simp only [fnSetBody, hc, if_true] at h
      cases h' : splitAtClose q with
      | none => rw [h'] at h; simp at h
      | some r =>
        rw [h'] at h
        simp only [Option.map_some', Option.some.injEq, Prod.mk.injEq] at h
        have := splitAtClose_length q r.1 r.2 (by rw [h'])
        rw [← h.2]
        simp only [List.length_cons]
        omega
    · simp only [fnSetBody, hc, if_false] at h
      exact splitAtClose_length (c :: q) body rest h

theorem fnSetSplit_length (p : List Char) :
    ∀ neg body rest, fnSetSplit p = some (neg, body, rest) → rest.length < p.length := by
  intro neg body rest h
  match p with
  | [] => simp [fnSetSplit] at h
  | c :: q =>
    by_cases hc : c = '!'
    · simp only [fnSetSplit, hc, if_true] at h
      cases h' : fnSetBody q with
      | none => rw [h'] at h; simp at h
      | some r =>
        rw [h'] at h
        simp only [Option.map_some', Option.some.injEq, Prod.mk.injEq] at h
        have := fnSetBody_length q r.1 r.2 (by rw [h'])
        rw [← h.2.2]
        simp only [List.length_cons]
        omega
    · simp only [fnSetSplit, hc, if_false] at h
      cases h' : fnSetBody (c :: q) with
      | none => rw [h'] at h; simp at h
      | some r =>
        rw [h'] at h
        simp only [Option.map_some', Option.some.injEq, Prod.mk.injEq] at h
        have := fnSetBody_length (c :: q) r.1 r.2 (by rw [h'])
        rw [← h.2.2]
        omega

/-- Fuelled tokenizer for `fnmatch` patterns; fuel at least the pattern
length is always sufficient. -/
def fnTokGo : Nat → List Char → List GlobTok
  | 0, _ => []
  | _ + 1, [] => []
  | fuel + 1, c :: p =>
    if c = '*' then GlobTok.star :: fnTokGo fuel p
    else if c = '?' then GlobTok.anyChar :: fnTokGo fuel p
    else if c = '[' then
      match fnSetSplit p with
      | some (neg, body, rest) => GlobTok.chSet neg body :: fnTokGo fuel rest
      | none => GlobTok.lit '[' :: fnTokGo fuel p
    else GlobTok.lit c :: fnTokGo fuel p

def fnTokenize (pat : String) : List GlobTok := fnTokGo pat.data.length pat.data

/-- Body of a redis character set up to the matching `]`: escaped
characters and `a-b` ranges are consumed as units, so a `]` inside them
does not close the set; an unterminated set extends to the end of the
pattern. -/
def redisSetBody : Nat → List Char → List Char × List Char
  | 0, p => ([], p)
  | _ + 1, [] => ([], [])
  | fuel + 1, '\\' :: a :: q =>
      let r := redisSetBody fuel q
      ('\\' :: a :: r.1, r.2)
  | fuel + 1, c :: q =>
    if c = ']' then ([], q)
    else
      match q with
      | '-' :: b :: q' =>
          let r := redisSetBody fuel q'
          (c :: '-' :: b :: r.1, r.2)
      | _ =>
          let r := redisSetBody fuel q
          (c :: r.1, r.2)

/-- Fuelled tokenizer for redis glob patterns. -/
def redisTokGo : Nat → List Char → List GlobTok
  | 0, _ => []
  | _ + 1, [] => []
  | fuel + 1, c :: p =>
    if c = '*' then GlobTok.star :: redisTokGo fuel p
    else if c = '?' then GlobTok.anyChar :: redisTokGo fuel p
    else if c = '[' then
      let neg : Bool × List Char :=
        match p with
        | '^' :: q => (true, q)
        | _ => (false, p)
      let r := redisSetBody (neg.2.length + 1) neg.2
      GlobTok.chSet neg.1 r.1 :: redisTokGo fuel r.2
    else if c = '\\' then
      match p with
      | a :: q => GlobTok.lit a :: redisTokGo fuel q
      | [] => [GlobTok.lit '\\']
    else GlobTok.lit c :: redisTokGo fuel p

def redisTokenize (pat : String) : List GlobTok := redisTokGo pat.data.length pat.data

/-- Matcher over a token list, parameterized by the character-set
membership test.  The whole string must be consumed; a `*` token tries
every suffix of the remaining string. -/
def tokMatch (mem : List Char → Char → Bool) : List GlobTok → List Char → Bool
  | [], s => s.isEmpty
  | GlobTok.star :: ts, s => s.tails.any (fun s' => tokMatch mem ts s')
  | GlobTok.anyChar :: _, [] => false
  | GlobTok.anyChar :: ts, _ :: s' => tokMatch mem ts s'
  | GlobTok.lit _ :: _, [] => false
  | GlobTok.lit c :: ts, d :: s' => (d == c) && tokMatch mem ts s'
  | GlobTok.chSet _ _ :: _, [] => false
  | GlobTok.chSet neg body :: ts, d :: s' =>
      (neg != mem body d) && tokMatch mem ts s'

/-- `fnmatch.fnmatchcase(name, pat)` from the Python standard library. -/
def fnmatchCase (name pat : String) : Bool :=
  tokMatch setMatches (fnTokenize pat) name.data

/-- The glob matcher a redis server applies to `KEYS` / `SCAN` patterns. -/
def redisMatch (pat s : String) : Bool :=
  tokMatch redisSetMatches (redisTokenize pat) s.data

theorem tokMatch_star_nil (mem : List Char → Char → Bool) (s : List Char) :
    tokMatch mem [GlobTok.star] s = true := by
  simp only [tokMatch, List.any_eq_true]
  exact ⟨[], by simp [List.mem_tails], by simp [tokMatch]⟩

theorem tokMatch_lit_star (mem : List Char → Char → Bool) (pre : List Char) :
    ∀ s : List Char,
      tokMatch mem (pre.map GlobTok.lit ++ [GlobTok.star]) s = pre.isPrefixOf s := by
  induction pre with
  | nil =>
    intro s
    simp only [List.map_nil, List.nil_append]
    rw [tokMatch_star_nil]
    simp [List.isPrefixOf]
  | cons c pre ih =>
    intro s
    cases s with
    | nil => simp [tokMatch, List.isPrefixOf]
    | cons d s' =>
      simp only [List.map_cons, List.cons_append, tokMatch, List.isPrefixOf, ih s']
      rw [Bool.beq_comm]
      rw [show (List.map GlobTok.lit pre).append [GlobTok.star]
            = List.map GlobTok.lit pre ++ [GlobTok.star] from rfl, ih s']

/-! ## The serialization codec (`ga.io.serializer.Serializer`)

`Serializer.dumps` pickles a value and optionally compresses the pickled
bytes; `Serializer.loads` mirrors it.  The pickle module and the
compression libraries (blosc, gzip, bz2, zipfile, lzma, snappy) are
external dependencies, so they are abstracted into a `Codecs` parameter;
`Codecs.Sound` collects exactly the round-trip laws the pipeline relies
on.  Availability of each backing library is a `Libs` flag vector: when
the selected method's library is absent, `dumps`/`loads` emit a warning
and fall back to no compression, mirroring the `ImportError` handlers.
-/

/-- The closed set of compression method names accepted by the
`assert` at the top of `Serializer.dumps` / `Serializer.loads`
(besides `None`). -/
inductive CName where
  | blosclz | lz4 | lz4hc | zlib | zstd | gzip | bz2 | zip | lzma | snappy
  deriving DecidableEq

/-- Which optional libraries are importable in the runtime environment. -/
structure Libs where
  blosc : Bool
  gzip : Bool
  bz2 : Bool
  zipfile : Bool
  lzma : Bool
  snappy : Bool
  deriving DecidableEq

/-- The library gating a compression method, following the
`try: import ... except ImportError:` chain in `dumps`/`loads`:
the five blosc-family names all require `blosc`. -/
def CName.libAvailable (libs : Libs) : CName → Bool
  | .blosclz => libs.blosc
  | .lz4 => libs.blosc
  | .lz4hc => libs.blosc
  | .zlib => libs.blosc
  | .zstd => libs.blosc
  | .gzip => libs.gzip
  | .bz2 => libs.bz2
  | .zip => libs.zipfile
  | .lzma => libs.lzma
  | .snappy => libs.snappy

/-- Byte strings of the Python sources. -/
abbrev Bytes := List Nat

/-- The external serialization and compression primitives used by
`Serializer`.  `pickle`/`unpickle` stand for `pickle.dumps`/`pickle.loads`
(unpickling may fail); the compression pairs stand for the respective
libraries.  `bloscC` receives the `cname` and `clevel` arguments of
`blosc.compress`; the standard-library compressors receive the level. -/
structure Codecs (α : Type) where
  pickle : α → Bytes
  unpickle : Bytes → Option α
  bloscC : CName → Nat → Bytes → Bytes
  bloscD : Bytes → Bytes
  gzipC : Nat → Bytes → Bytes
  gzipD : Bytes → Bytes
  bz2C : Nat → Bytes → Bytes
  bz2D : Bytes → Bytes
  zipC : Nat → Bytes → Bytes
  zipD : Bytes → Bytes
  lzmaC : Nat → Bytes → Bytes
  lzmaD : Bytes → Bytes
  snappyC : Bytes → Bytes
  snappyD : Bytes → Bytes

/-- The round-trip and non-emptiness laws of the external libraries that
the serializer's correctness rests on: unpickling inverts pickling,
pickled data is never empty, each decompressor inverts its compressor,
and compressed output of non-empty input is non-empty. -/
def Codecs.Sound {α : Type} (c : Codecs α) : Prop :=
  (∀ a, c.unpickle (c.pickle a) = some a) ∧
  (∀ a, c.pickle a ≠ []) ∧
  (∀ n l b, c.bloscD (c.bloscC n l b) = b) ∧
  (∀ n l b, b ≠ [] → c.bloscC n l b ≠ []) ∧
  (∀ l b, c.gzipD (c.gzipC l b) = b) ∧
  (∀ l b, b ≠ [] → c.gzipC l b ≠ []) ∧
  (∀ l b, c.bz2D (c.bz2C l b) = b) ∧
  (∀ l b, b ≠ [] → c.bz2C l b ≠ []) ∧
  (∀ l b, c.zipD (c.zipC l b) = b) ∧
  (∀ l b, b ≠ [] → c.zipC l b ≠ []) ∧
  (∀ l b, c.lzmaD (c.lzmaC l b) = b) ∧
  (∀ l b, b ≠ [] → c.lzmaC l b ≠ []) ∧
  (∀ b, c.snappyD (c.snappyC b) = b) ∧
  (∀ b, b ≠ [] → c.snappyC b ≠ [])

/-- The availability fallback shared by `dumps` and `loads`: a method
whose backing library cannot be imported degrades to `None`. -/
def effectiveCompression (libs : Libs) : Option CName → Option CName
  | none => none
  | some m => if m.libAvailable libs then some m else none

/-- Whether the availability-fallback chain of `dumps`/`loads` emits a
`warnings.warn` diagnostic for this method in this environment. -/
def fallbackWarns (libs : Libs) : Option CName → Bool
  | none => false
  | some m => !(m.libAvailable libs)

/-- Result of `Serializer.dumps`: the produced bytes, plus whether a
warning diagnostic was emitted. -/
structure DumpResult where
  out : Bytes
  warned : Bool
  deriving DecidableEq

/-- `Serializer.dumps(value, compression, clevel)`: validate the method
(here by typing), degrade to `None` if the backing library is missing,
pickle, then apply the selected compression stage. -/
def Serializer.dumps {α : Type} (c : Codecs α) (value : α)
    (compression : Option CName) (clevel : Nat) (libs : Libs) : DumpResult :=
  let m := effectiveCompression libs compression
  let pickled := c.pickle value
  let out :=
    match m with
    | none => pickled
    | some .blosclz => c.bloscC .blosclz clevel pickled
    | some .lz4 => c.bloscC .lz4 clevel pickled
    | some .lz4hc => c.bloscC .lz4hc clevel pickled
    | some .zlib => c.bloscC .zlib clevel pickled
    | some .zstd => c.bloscC .zstd clevel pickled
    | some .gzip => c.gzipC clevel pickled
    | some .bz2 => c.bz2C clevel pickled
    | some .zip => c.zipC clevel pickled
    | some .lzma => c.lzmaC clevel pickled
    | some .snappy => c.snappyC pickled
  ⟨out, fallbackWarns libs compression⟩

/-- Result of `Serializer.loads`: `None` and empty inputs are returned
unchanged, otherwise the data is decompressed and unpickled; a failing
unpickle propagates as an error. -/
inductive LoadResult (α : Type) where
  | noneInput : LoadResult α
  | emptyInput : LoadResult α
  | obj : α → LoadResult α
  | err : LoadResult α
  deriving DecidableEq

/-- `Serializer.loads(data, compression)`: same availability fallback as
`dumps` (computed before the empty-input check, as in the source), then
the `None`/empty early return, then decompress and unpickle. -/
def Serializer.loads {α : Type} (c : Codecs α) (data : Option Bytes)
    (compression : Option CName) (libs : Libs) : LoadResult α :=
  let m := effectiveCompression libs compression
  match data with
  | none => .noneInput
  | some d =>
    if d.length = 0 then .emptyInput
    else
      let raw :=
        match m with
        | none => d
        | some .blosclz => c.bloscD d
        | some .lz4 => c.bloscD d
        | some .lz4hc => c.bloscD d
        | some .zlib => c.bloscD d
        | some .zstd => c.bloscD d
        | some .gzip => c.gzipD d
        | some .bz2 => c.bz2D d
        | some .zip => c.zipD d
        | some .lzma => c.lzmaD d
        | some .snappy => c.snappyD d
      match c.unpickle raw with
      | some a => .obj a
      | none => .err

/-- Environment with every optional compression library importable. -/
def allLibs : Libs := ⟨true, true, true, true, true, true⟩

/-- Environment with no optional compression library importable. -/
def noLibs : Libs := ⟨false, false, false, false, false, false⟩

/-- A concrete instantiation of the external `Codecs` interface used to
witness the serializer theorems: pickling prepends nothing but shifts the
value into a singleton list, and every compressor is the identity. -/
def natCodecs : Codecs Nat where
  pickle n := [n + 1]
  unpickle b :=
    match b with
    | [k + 1] => some k
    | _ => none
  bloscC _ _ b := b
  bloscD b := b
  gzipC _ b := b
  gzipD b := b
  bz2C _ b := b
  bz2D b := b
  zipC _ b := b
  zipD b := b
  lzmaC _ b := b
  lzmaD b := b
  snappyC b := b
  snappyD b := b

theorem natCodecs_sound : natCodecs.Sound := by
  refine ⟨fun a => rfl, fun a => by simp [natCodecs], ?_, ?_, ?_, ?_, ?_, ?_, ?_, ?_, ?_, ?_, ?_, ?_⟩ <;>
    simp [natCodecs]

/-- C1: for every value `v`, every supported compression method
(`None` or any of the ten names) and every compression level,
`Serializer.loads(Serializer.dumps(v, compression, clevel), compression)`
returns `v`, in any library environment, provided the external pickle
and compression libraries satisfy their round-trip laws. -/
theorem serializer_roundtrip {α : Type} (c : Codecs α) (hs : c.Sound)
    (v : α) (m : Option CName) (clevel : Nat) (libs : Libs) :
    Serializer.loads c (some (Serializer.dumps c v m clevel libs).out) m libs
      = LoadResult.obj v := by
  obtain ⟨hup, hne, hbd, hbne, hgd, hgne, h2d, h2ne, hzd, hzne, hld, hlne, hsd, hsne⟩ := hs
  have hpick := hne v
  rcases m with _ | cm
  · simp [Serializer.dumps, Serializer.loads, effectiveCompression,
      List.length_eq_zero, hpick, hup]
  · by_cases ha : cm.libAvailable libs
    · have hb' := hbne cm clevel (c.pickle v) hpick
      have hg' := hgne clevel (c.pickle v) hpick
      have h2' := h2ne clevel (c.pickle v) hpick
      have hz' := hzne clevel (c.pickle v) hpick
      have hl' := hlne clevel (c.pickle v) hpick
      have hs' := hsne (c.pickle v) hpick
      cases cm <;>
        simp_all [Serializer.dumps, Serializer.loads, effectiveCompression,
          List.length_eq_zero, hbne _ clevel _ hpick]
    · simp [Serializer.dumps, Serializer.loads, effectiveCompression, ha,
        List.length_eq_zero, hpick, hup]

/-- Witness for `serializer_roundtrip` at a concrete codec, value,
method and level. -/
theorem serializer_roundtrip_witness :
    natCodecs.Sound ∧
      Serializer.loads natCodecs
          (some (Serializer.dumps natCodecs 3 (some CName.gzip) 5 allLibs).out)
          (some CName.gzip) allLibs = LoadResult.obj 3 :=
  ⟨natCodecs_sound,
    serializer_roundtrip natCodecs natCodecs_sound 3 (some CName.gzip) 5 allLibs⟩

/-- C7: when the backing library of the selected method cannot be
imported, `dumps` emits a warning and returns the plain pickled bytes
(no compression stage), `loads` with the same method emits the same
warning and falls back to plain unpickling, and the round-trip still
recovers the value. -/
theorem serializer_fallback {α : Type} (c : Codecs α) (hs : c.Sound)
    (v : α) (cm : CName) (clevel : Nat) (libs : Libs)
    (hmissing : cm.libAvailable libs = false) :
    (Serializer.dumps c v (some cm) clevel libs).warned = true ∧
    (Serializer.dumps c v (some cm) clevel libs).out = c.pickle v ∧
    fallbackWarns libs (some cm) = true ∧
    Serializer.loads c (some (Serializer.dumps c v (some cm) clevel libs).out)
        (some cm) libs = LoadResult.obj v := by
  obtain ⟨hup, hne, -, -, -, -, -, -, -, -, -, -, -, -⟩ := hs
  have hpick := hne v
  refine ⟨?_, ?_, ?_, ?_⟩ <;>
    simp [Serializer.dumps, Serializer.loads, effectiveCompression,
      fallbackWarns, hmissing, List.length_eq_zero, hpick, hup]

/-- Witness for `serializer_fallback`: snappy selected but absent. -/
theorem serializer_fallback_witness :
    natCodecs.Sound ∧ CName.snappy.libAvailable noLibs = false ∧
      ((Serializer.dumps natCodecs 7 (some CName.snappy) 5 noLibs).warned = true ∧
       (Serializer.dumps natCodecs 7 (some CName.snappy) 5 noLibs).out = natCodecs.pickle 7 ∧
       fallbackWarns noLibs (some CName.snappy) = true ∧
       Serializer.loads natCodecs
           (some (Serializer.dumps natCodecs 7 (some CName.snappy) 5 noLibs).out)
           (some CName.snappy) noLibs = LoadResult.obj 7) :=
  ⟨natCodecs_sound, by decide,
    serializer_fallback natCodecs natCodecs_sound 7 CName.snappy 5 noLibs (by decide)⟩

/-! ## Key-value stores

Both `SharedMemory` (backed by a manager-hosted `_SharedKVStore`
dictionary) and `RedisSharedMemory` (backed by a redis database) are
modelled over insertion-ordered association lists from full (prefixed)
key strings to serialized byte strings — the behaviour of a Python
`dict` and of a redis keyspace.  The per-instance serializer closures
`self.__dumps` / `self.__loads` are passed as parameters `E` / `D`.
-/

/-- A small universe of Python values for stores and messages;
`pynone` is Python's `None`. -/
inductive PyVal where
  | pynone : PyVal
  | int : Nat → PyVal
  deriving DecidableEq

/-- Python exceptions raised by the embedded operations. -/
inductive PyErr where
  | valueError : PyErr
  | keyError : PyErr
  deriving DecidableEq

/-- A Python `dict[str, bytes]` / a redis keyspace: an insertion-ordered
association list. -/
abbrev KVStore := List (String × Bytes)

/-- `store[key] = value`: overwrite in place, or append a new entry. -/
def kvSet : KVStore → String → Bytes → KVStore
  | [], k, v => [(k, v)]
  | (k', v') :: rest, k, v =>
    if k' = k then (k', v) :: rest else (k', v') :: kvSet rest k v

/-- `store.get(key)`: the value at the first matching key, if any. -/
def kvGet : KVStore → String → Option Bytes
  | [], _ => none
  | (k', v') :: rest, k => if k' = k then some v' else kvGet rest k

/-- `key in store`. -/
def kvHasKey (st : KVStore) (k : String) : Bool := (kvGet st k).isSome

/-- `del store[key]` / redis `DEL`: drop the entry if present. -/
def kvDelete : KVStore → String → KVStore
  | [], _ => []
  | (k', v') :: rest, k => if k' = k then rest else (k', v') :: kvDelete rest k

/-- `list(store.keys())`. -/
def kvKeys (st : KVStore) : List String := st.map Prod.fst

/-- `startswith` on strings. -/
def strPrefix (p s : String) : Bool := p.data.isPrefixOf s.data

/-- `s[n:]` by characters. -/
def strDrop (s : String) (n : Nat) : String := String.mk (s.data.drop n)

/-- The state of one `SharedMemory` instance: the configured bucket and
the contents of its manager-hosted `_SharedKVStore`. -/
structure SharedMemory where
  bucket : Option String
  store : KVStore
  deriving DecidableEq

/-- Python truthiness of `self.bucket` (`None` and `""` are falsy). -/
def SharedMemory.hasBucket (sm : SharedMemory) : Bool :=
  match sm.bucket with
  | some b => b ≠ ""
  | none => false

/-- `self.prefix = f"{bucket}:" if bucket else ""`. -/
def SharedMemory.pfx (sm : SharedMemory) : String :=
  match sm.bucket with
  | some b => if b = "" then "" else b ++ ":"
  | none => ""

/-- `self._key(key)`. -/
def SharedMemory.smKey (sm : SharedMemory) (k : String) : String := sm.pfx ++ k

/-- `self._key_without_bucket(key)`. -/
def SharedMemory.keyWithoutBucket (sm : SharedMemory) (k : String) : String :=
  if strPrefix sm.pfx k then strDrop k sm.pfx.length else k

/-- `self._key_in_bucket(key)`. -/
def SharedMemory.keyInBucket (sm : SharedMemory) (k : String) : Bool :=
  if sm.hasBucket then strPrefix sm.pfx k else true

/-- `SharedMemory.set(key, value)`. -/
def SharedMemory.set (E : PyVal → Bytes) (sm : SharedMemory) (k : String) (v : PyVal) :
    SharedMemory :=
  ⟨sm.bucket, kvSet sm.store (sm.smKey k) (E v)⟩

/-- `SharedMemory.get(key, default)`. -/
def SharedMemory.get (D : Bytes → PyVal) (sm : SharedMemory) (k : String) (default : PyVal) :
    PyVal :=
  match kvGet sm.store (sm.smKey k) with
  | some b => D b
  | none => default

/-- `SharedMemory.setdefault(key, value)` as the source implements it:
a `has_key` probe followed by either a `get` or a `set`, all as separate
manager calls. -/
def SharedMemory.setdefault (E : PyVal → Bytes) (D : Bytes → PyVal) (sm : SharedMemory)
    (k : String) (v : PyVal) : PyVal × SharedMemory :=
  match kvGet sm.store (sm.smKey k) with
  | some b => (D b, sm)
  | none => (D (E v), ⟨sm.bucket, kvSet sm.store (sm.smKey k) (E v)⟩)

/-- `SharedMemory.pop(key)`: note the source takes no default — a missing
key yields Python `None`. -/
def SharedMemory.pop (D : Bytes → PyVal) (sm : SharedMemory) (k : String) :
    PyVal × SharedMemory :=
  match kvGet sm.store (sm.smKey k) with
  | some b => (D b, ⟨sm.bucket, kvDelete sm.store (sm.smKey k)⟩)
  | none => (PyVal.pynone, sm)

/-- `SharedMemory.delete(key)`. -/
def SharedMemory.delete (sm : SharedMemory) (k : String) : SharedMemory :=
  ⟨sm.bucket, kvDelete sm.store (sm.smKey k)⟩

/-- `SharedMemory.scan_iter(match)`: for each stored key in the bucket,
the source tests `fnmatch(match, k)` — `fnmatchcase` with `match` in the
name position and the full prefixed key `k` in the pattern position —
and yields the key with the prefix stripped. -/
def SharedMemory.scanIter (sm : SharedMemory) (mtch : Option String) : List String :=
  (kvKeys sm.store).filterMap (fun k =>
    if sm.keyInBucket k then
      match mtch with
      | none => some (sm.keyWithoutBucket k)
      | some m => if fnmatchCase m k then some (sm.keyWithoutBucket k) else none
    else none)

/-- `SharedMemory.keys()`. -/
def SharedMemory.keysOf (sm : SharedMemory) : List String := sm.scanIter none

/-- The spec's reading of `scan_iter(pattern)`: the keys of the current
bucket, with the bucket prefix stripped, whose stripped name matches the
glob pattern. -/
def scanIterSpec (sm : SharedMemory) (mtch : Option String) : List String :=
  (kvKeys sm.store).filterMap (fun k =>
    if sm.keyInBucket k then
      match mtch with
      | none => some (sm.keyWithoutBucket k)
      | some m =>
        if fnmatchCase (sm.keyWithoutBucket k) m then some (sm.keyWithoutBucket k) else none
    else none)

/-- `SharedMemory.clear()`: with a truthy bucket, pop every key of the
bucket; otherwise raise `ValueError` without touching the store. -/
def SharedMemory.clear (sm : SharedMemory) : Except PyErr SharedMemory :=
  if sm.hasBucket then
    let keysToRemove := (kvKeys sm.store).filter (fun k => sm.keyInBucket k)
    Except.ok ⟨sm.bucket, keysToRemove.foldl (fun st k => kvDelete st k) sm.store⟩
  else Except.error PyErr.valueError

/-- The configuration of one `RedisSharedMemory` client; the redis
database itself is shared between clients and passed separately. -/
structure RedisClient where
  bucket : Option String
  deriving DecidableEq

/-- Python truthiness of `self.bucket`. -/
def RedisClient.hasBucket (c : RedisClient) : Bool :=
  match c.bucket with
  | some b => b ≠ ""
  | none => false

/-- `self.prefix = f"{bucket}:" if bucket else ""`. -/
def RedisClient.pfx (c : RedisClient) : String :=
  match c.bucket with
  | some b => if b = "" then "" else b ++ ":"
  | none => ""

/-- `self._key(key)`. -/
def RedisClient.rKey (c : RedisClient) (k : String) : String := c.pfx ++ k

/-- `self._key_without_bucket(key)`. -/
def RedisClient.keyWithoutBucket (c : RedisClient) (k : String) : String :=
  if strPrefix c.pfx k then strDrop k c.pfx.length else k

/-- `self._key_in_bucket(key)`. -/
def RedisClient.keyInBucket (c : RedisClient) (k : String) : Bool :=
  if c.hasBucket then strPrefix c.pfx k else true

/-- `RedisSharedMemory.set(key, value)`. -/
def RedisClient.set (E : PyVal → Bytes) (db : KVStore) (c : RedisClient)
    (k : String) (v : PyVal) : KVStore :=
  kvSet db (c.rKey k) (E v)

/-- `RedisSharedMemory.get(key, default)`: `EXISTS` then `GET`. -/
def RedisClient.get (D : Bytes → PyVal) (db : KVStore) (c : RedisClient)
    (k : String) (default : PyVal) : PyVal :=
  match kvGet db (c.rKey k) with
  | some b => D b
  | none => default

/-- `RedisSharedMemory.setdefault(key, default)`: `EXISTS`, then either
`GET` or `SET`; on the miss path the caller's `default` object itself is
returned. -/
def RedisClient.setdefault (E : PyVal → Bytes) (D : Bytes → PyVal) (db : KVStore)
    (c : RedisClient) (k : String) (default : PyVal) : PyVal × KVStore :=
  match kvGet db (c.rKey k) with
  | some b => (D b, db)
  | none => (default, kvSet db (c.rKey k) (E default))

/-- `RedisSharedMemory.pop(key, default)`: a `get` with the default,
then an unconditional `DEL`. -/
def RedisClient.pop (D : Bytes → PyVal) (db : KVStore) (c : RedisClient)
    (k : String) (default : PyVal) : PyVal × KVStore :=
  (c.get D db k default, kvDelete db (c.rKey k))

/-- `RedisSharedMemory.delete(key)`. -/
def RedisClient.delete (db : KVStore) (c : RedisClient) (k : String) : KVStore :=
  kvDelete db (c.rKey k)

/-- The glob pattern `RedisSharedMemory.keys` scans with. -/
def RedisClient.keyPattern (c : RedisClient) : String :=
  if c.hasBucket then c.pfx ++ "*" else "*"

/-- `RedisSharedMemory.keys()`: scan the database with the bucket
pattern and strip the prefix from each hit. -/
def RedisClient.keys (db : KVStore) (c : RedisClient) : List String :=
  (kvKeys db).filterMap (fun full =>
    if redisMatch c.keyPattern full then some (c.keyWithoutBucket full) else none)

/-- `RedisSharedMemory.clear()`: with a truthy bucket, `KEYS prefix*`
then `DEL` of every hit; otherwise raise `ValueError`. -/
def RedisClient.clear (db : KVStore) (c : RedisClient) : Except PyErr KVStore :=
  if c.hasBucket then
    Except.ok (db.filter (fun p => !(redisMatch (c.pfx ++ "*") p.1)))
  else Except.error PyErr.valueError

/-- Concrete serializer pair used by witnesses and counterexamples. -/
def pyE : PyVal → Bytes
  | PyVal.pynone => [0]
  | PyVal.int n => [1, n]

/-- Concrete deserializer inverting `pyE`. -/
def pyD : Bytes → PyVal
  | [1, n] => PyVal.int n
  | _ => PyVal.pynone

theorem pyD_pyE (v : PyVal) : pyD (pyE v) = v := by
  cases v <;> rfl

/-! ### Association-list lemmas -/

theorem kvGet_kvSet (st : KVStore) (k k' : String) (v : Bytes) :
    kvGet (kvSet st k v) k' = if k = k' then some v else kvGet st k' := by
  induction st with
  | nil => simp [kvSet, kvGet]
  | cons p rest ih =>
    obtain ⟨k0, v0⟩ := p
    by_cases h0 : k0 = k
    · subst h0
      by_cases h1 : k0 = k'
      · subst h1; simp [kvSet, kvGet]
      · simp [kvSet, kvGet, h1]
    · by_cases h1 : k0 = k'
      · subst h1
        have : ¬ k = k0 := fun h => h0 h.symm
        simp [kvSet, kvGet, h0, this]
      · simp [kvSet, kvGet, h0, h1, ih]

theorem kvGet_not_mem (st : KVStore) (k : String) (h : k ∉ kvKeys st) :
    kvGet st k = none := by
  induction st with
  | nil => rfl
  | cons p rest ih =>
    obtain ⟨k0, v0⟩ := p
    simp only [kvKeys, List.map_cons, List.mem_cons, not_or] at h
    have h1 : k0 ≠ k := fun hk => h.1 (Eq.symm hk)
    simp [kvGet, h1]
    exact ih (by simpa [kvKeys] using h.2)

theorem kvDelete_sublist (st : KVStore) (k : String) : List.Sublist (kvDelete st k) st := by
  induction st with
  | nil => simp [kvDelete]
  | cons p rest ih =>
    obtain ⟨k0, v0⟩ := p
    by_cases h : k0 = k
    · simp [kvDelete, h]
    · simpa [kvDelete, h] using ih.cons₂ (k0, v0)

theorem kvGet_kvDelete (st : KVStore) (hnd : (kvKeys st).Nodup) (k k' : String) :
    kvGet (kvDelete st k) k' = if k = k' then none else kvGet st k' := by
  induction st with
  | nil => simp [kvDelete, kvGet]
  | cons p rest ih =>
    obtain ⟨k0, v0⟩ := p
    simp only [kvKeys, List.map_cons, List.nodup_cons] at hnd
    by_cases h0 : k0 = k
    · subst h0
      simp only [kvDelete, if_pos rfl]
      by_cases h1 : k0 = k'
      · subst h1
        simp [kvGet_not_mem rest k0 (by simpa [kvKeys] using hnd.1)]
      · have h1' : ¬ k0 = k' := h1
        simp [kvGet, h1']
    · simp only [kvDelete, h0, if_false]
      by_cases h1 : k0 = k'
      · subst h1
        have h2 : ¬ k = k0 := fun h => h0 (Eq.symm h)
        simp [kvGet, h2]
      · simp [kvGet, h1, ih (by simpa [kvKeys] using hnd.2)]

theorem kvDelete_of_absent (st : KVStore) (k : String) (h : kvGet st k = none) :
    kvDelete st k = st := by
  induction st with
  | nil => rfl
  | cons p rest ih =>
    obtain ⟨k0, v0⟩ := p
    by_cases h0 : k0 = k
    · subst h0; simp [kvGet] at h
    · simp only [kvGet, h0, if_false] at h
      simp [kvDelete, h0, ih h]

theorem kvKeys_kvDelete_nodup (st : KVStore) (k : String) (hnd : (kvKeys st).Nodup) :
    (kvKeys (kvDelete st k)).Nodup :=
  hnd.sublist ((kvDelete_sublist st k).map Prod.fst)

theorem kvGet_foldl_kvDelete (K : List String) :
    ∀ (st : KVStore), (kvKeys st).Nodup → ∀ k,
      kvGet (K.foldl (fun s kk => kvDelete s kk) st) k
        = if k ∈ K then none else kvGet st k := by
  induction K with
  | nil => intro st hnd k; simp
  | cons k0 K ih =>
    intro st hnd k
    simp only [List.foldl_cons]
    rw [ih (kvDelete st k0) (kvKeys_kvDelete_nodup st k0 hnd) k]
    by_cases hk : k ∈ K
    · simp [hk]
    · rw [kvGet_kvDelete st hnd k0 k]
      by_cases h0 : k0 = k
      · simp [h0]
      · have h0' : ¬ k = k0 := fun h => h0 (Eq.symm h)
        simp [hk, h0, h0']

theorem kvGet_filter_not (P : String → Bool) (db : KVStore) (k : String) :
    kvGet (db.filter (fun p => !(P p.1))) k = if P k then none else kvGet db k := by
  induction db with
  | nil => simp [kvGet]
  | cons p rest ih =>
    obtain ⟨k0, v0⟩ := p
    by_cases hP : P k0 = true
    · rw [List.filter_cons_of_neg (by simp [hP])]
      rw [ih]
      by_cases h1 : k0 = k
      · subst h1; simp [hP, kvGet]
      · simp [kvGet, h1]
    · rw [List.filter_cons_of_pos (by simp [hP])]
      by_cases h1 : k0 = k
      · subst h1
        simp [kvGet, hP]
      · simp [kvGet, h1, ih]

/-! ### Prefix patterns through the redis glob matcher -/

/-- A character with no special meaning to the redis glob matcher. -/
def plainChar (c : Char) : Bool := !(c == '*' || c == '?' || c == '[' || c == '\\')

/-- A string with no redis glob metacharacters. -/
def redisPlain (s : String) : Bool := s.data.all plainChar

theorem redisTokGo_nil (fuel : Nat) : redisTokGo fuel [] = [] := by
  cases fuel <;> rfl

theorem redisTokGo_lit_star (pre : List Char) (h : pre.all plainChar = true) :
    ∀ fuel, pre.length + 1 ≤ fuel →
      redisTokGo fuel (pre ++ ['*']) = pre.map GlobTok.lit ++ [GlobTok.star] := by
  induction pre with
  | nil =>
    intro fuel hf
    obtain ⟨f, rfl⟩ : ∃ f, fuel = f + 1 := ⟨fuel - 1, by omega⟩
    simp [redisTokGo, redisTokGo_nil]
  | cons c pre ih =>
    intro fuel hf
    obtain ⟨f, rfl⟩ : ∃ f, fuel = f + 1 := ⟨fuel - 1, by omega⟩
    simp only [List.all_cons, Bool.and_eq_true] at h
    have hc : c ≠ '*' ∧ c ≠ '?' ∧ c ≠ '[' ∧ c ≠ '\\' := by
      have := h.1
      simp only [plainChar, Bool.not_eq_eq_eq_not, Bool.not_true, Bool.or_eq_false_iff,
        beq_eq_false_iff_ne, ne_eq] at this
      exact ⟨this.1.1.1, this.1.1.2, this.1.2, this.2⟩
    have hlen : pre.length + 1 ≤ f := by
      simp only [List.length_cons] at hf
      omega
    simp only [List.cons_append, redisTokGo, hc.1, hc.2.1, hc.2.2.1, hc.2.2.2,
      if_false, List.map_cons, List.append_eq, ih h.2 f hlen]

theorem redisMatch_pfx_star (p s : String) (hp : redisPlain p = true) :
    redisMatch (p ++ "*") s = p.data.isPrefixOf s.data := by
  unfold redisMatch redisTokenize
  have hd : (p ++ "*").data = p.data ++ ['*'] := by
    rw [String.data_append]
  have hTok := redisTokGo_lit_star p.data hp ((p.data ++ ['*']).length) (by simp)
  rw [hd, hTok]
  exact tokMatch_lit_star _ _ _

/-! ### Claims about scan_iter, pop, clear and bucket isolation -/

/-- C2: evaluation of `scan_iter` at the failing input.  With bucket
`"users"` and stored key `"admin1"` (full key `"users:admin1"`), the
source's `scan_iter("admin*")` yields nothing — it calls
`fnmatch(match, k)`, putting the pattern in `fnmatchcase`'s *name* slot
and the full prefixed key in its *pattern* slot — while the specified
behaviour (pattern matched against the prefix-stripped key name) yields
`["admin1"]`. -/
theorem scanIter_swapped_fnmatch :
    SharedMemory.scanIter ⟨some "users", [("users:admin1", pyE (PyVal.int 5))]⟩
        (some "admin*") = [] ∧
    scanIterSpec ⟨some "users", [("users:admin1", pyE (PyVal.int 5))]⟩
        (some "admin*") = ["admin1"] := by
  constructor <;> decide

/-- C3 (counterexample): the local backend's `pop` accepts no default
argument; popping a missing key returns Python `None`, which is not the
caller-supplied default `7` the claim promises. -/
theorem pop_local_missing_returns_none :
    (SharedMemory.pop pyD ⟨some "t", []⟩ "k").1 = PyVal.pynone ∧
    PyVal.pynone ≠ PyVal.int 7 := by
  constructor
  · rfl
  · decide

/-- C3 (amended): the redis backend's `pop(key, default)` removes the
prefixed key and returns its decoded value when present, and returns the
default leaving the database unchanged when absent.  The local backend's
`pop(key)` takes no default: when present it removes the prefixed key
and returns its decoded value; when absent it returns Python `None` and
leaves the store unchanged. -/
theorem pop_behaviour (D : Bytes → PyVal) (db : KVStore) (c : RedisClient)
    (sm : SharedMemory) (k : String) (d : PyVal) (b : Bytes)
    (hnd : (kvKeys db).Nodup) (hnd2 : (kvKeys sm.store).Nodup) :
    (kvGet db (c.rKey k) = some b →
      (RedisClient.pop D db c k d).1 = D b ∧
      kvGet (RedisClient.pop D db c k d).2 (c.rKey k) = none ∧
      ∀ k2, k2 ≠ c.rKey k → kvGet (RedisClient.pop D db c k d).2 k2 = kvGet db k2) ∧
    (kvGet db (c.rKey k) = none →
      (RedisClient.pop D db c k d).1 = d ∧ (RedisClient.pop D db c k d).2 = db) ∧
    (kvGet sm.store (sm.smKey k) = some b →
      (SharedMemory.pop D sm k).1 = D b ∧
      kvGet (SharedMemory.pop D sm k).2.store (sm.smKey k) = none ∧
      ∀ k2, k2 ≠ sm.smKey k →
        kvGet (SharedMemory.pop D sm k).2.store k2 = kvGet sm.store k2) ∧
    (kvGet sm.store (sm.smKey k) = none →
      SharedMemory.pop D sm k = (PyVal.pynone, sm)) := by
  refine ⟨fun h => ?_, fun h => ?_, fun h => ?_, fun h => ?_⟩
  · refine ⟨by simp [RedisClient.pop, RedisClient.get, h], ?_, ?_⟩
    · simp only [RedisClient.pop]
      rw [kvGet_kvDelete db hnd (c.rKey k) (c.rKey k)]
      simp
    · intro k2 hk2
      simp only [RedisClient.pop]
      rw [kvGet_kvDelete db hnd (c.rKey k) k2,
        if_neg (fun hh => hk2 (Eq.symm hh))]
  · exact ⟨by simp [RedisClient.pop, RedisClient.get, h],
      by simp [RedisClient.pop, kvDelete_of_absent db (c.rKey k) h]⟩
  · refine ⟨by simp [SharedMemory.pop, h], ?_, ?_⟩
    · simp only [SharedMemory.pop, h]
      rw [kvGet_kvDelete sm.store hnd2 (sm.smKey k) (sm.smKey k)]
      simp
    · intro k2 hk2
      simp only [SharedMemory.pop, h]
      rw [kvGet_kvDelete sm.store hnd2 (sm.smKey k) k2,
        if_neg (fun hh => hk2 (Eq.symm hh))]
  · simp [SharedMemory.pop, h]

/-- Witness for `pop_behaviour` at a concrete database, store and key. -/
theorem pop_behaviour_witness :
    ((kvKeys [("t:k", pyE (PyVal.int 3))]).Nodup ∧
     (kvKeys (SharedMemory.mk (some "t") [("t:k", pyE (PyVal.int 3))]).store).Nodup) ∧
    ((kvGet [("t:k", pyE (PyVal.int 3))] (RedisClient.rKey ⟨some "t"⟩ "k")
        = some (pyE (PyVal.int 3)) →
      (RedisClient.pop pyD [("t:k", pyE (PyVal.int 3))] ⟨some "t"⟩ "k" (PyVal.int 7)).1
          = pyD (pyE (PyVal.int 3)) ∧
      kvGet (RedisClient.pop pyD [("t:k", pyE (PyVal.int 3))] ⟨some "t"⟩ "k" (PyVal.int 7)).2
          (RedisClient.rKey ⟨some "t"⟩ "k") = none ∧
      ∀ k2, k2 ≠ RedisClient.rKey ⟨some "t"⟩ "k" →
        kvGet (RedisClient.pop pyD [("t:k", pyE (PyVal.int 3))] ⟨some "t"⟩ "k" (PyVal.int 7)).2 k2
          = kvGet [("t:k", pyE (PyVal.int 3))] k2) ∧
     (kvGet [("t:k", pyE (PyVal.int 3))] (RedisClient.rKey ⟨some "t"⟩ "k") = none →
      (RedisClient.pop pyD [("t:k", pyE (PyVal.int 3))] ⟨some "t"⟩ "k" (PyVal.int 7)).1
          = PyVal.int 7 ∧
      (RedisClient.pop pyD [("t:k", pyE (PyVal.int 3))] ⟨some "t"⟩ "k" (PyVal.int 7)).2
          = [("t:k", pyE (PyVal.int 3))]) ∧
     (kvGet (SharedMemory.mk (some "t") [("t:k", pyE (PyVal.int 3))]).store
          ((SharedMemory.mk (some "t") [("t:k", pyE (PyVal.int 3))]).smKey "k")
        = some (pyE (PyVal.int 3)) →
      (SharedMemory.pop pyD ⟨some "t", [("t:k", pyE (PyVal.int 3))]⟩ "k").1
          = pyD (pyE (PyVal.int 3)) ∧
      kvGet (SharedMemory.pop pyD ⟨some "t", [("t:k", pyE (PyVal.int 3))]⟩ "k").2.store
          ((SharedMemory.mk (some "t") [("t:k", pyE (PyVal.int 3))]).smKey "k") = none ∧
      ∀ k2, k2 ≠ (SharedMemory.mk (some "t") [("t:k", pyE (PyVal.int 3))]).smKey "k" →
        kvGet (SharedMemory.pop pyD ⟨some "t", [("t:k", pyE (PyVal.int 3))]⟩ "k").2.store k2
          = kvGet (SharedMemory.mk (some "t") [("t:k", pyE (PyVal.int 3))]).store k2) ∧
     (kvGet (SharedMemory.mk (some "t") [("t:k", pyE (PyVal.int 3))]).store
          ((SharedMemory.mk (some "t") [("t:k", pyE (PyVal.int 3))]).smKey "k") = none →
      SharedMemory.pop pyD ⟨some "t", [("t:k", pyE (PyVal.int 3))]⟩ "k"
          = (PyVal.pynone, ⟨some "t", [("t:k", pyE (PyVal.int 3))]⟩))) :=
  ⟨⟨by decide, by decide⟩,
    pop_behaviour pyD [("t:k", pyE (PyVal.int 3))] ⟨some "t"⟩
      ⟨some "t", [("t:k", pyE (PyVal.int 3))]⟩ "k" (PyVal.int 7) (pyE (PyVal.int 3))
      (by decide) (by decide)⟩

/-- C6 (counterexample): with the (glob-metacharacter) bucket `"*"`, the
redis `clear()` scans with pattern `"*:*"` and deletes key `"a:k"`, a
key outside bucket `"*"` (whose keys start with `"*:"`). -/
theorem clear_glob_bucket_overdeletes :
    RedisClient.clear [("a:k", [0])] ⟨some "*"⟩ = Except.ok [] ∧
    RedisClient.keyInBucket ⟨some "*"⟩ "a:k" = false := by
  exact ⟨rfl, by decide⟩

/-- C6 (amended): on both backends `clear()` without a truthy bucket
raises `ValueError` and touches nothing.  With a bucket, the local
backend removes exactly the keys of its bucket; the redis backend does
the same provided the bucket prefix contains no redis glob
metacharacter. -/
theorem clear_behaviour (sm : SharedMemory) (db : KVStore) (c : RedisClient)
    (hnd : (kvKeys sm.store).Nodup) :
    (sm.hasBucket = false → sm.clear = Except.error PyErr.valueError) ∧
    (c.hasBucket = false → RedisClient.clear db c = Except.error PyErr.valueError) ∧
    (sm.hasBucket = true →
      ∃ st2, sm.clear = Except.ok ⟨sm.bucket, st2⟩ ∧
        ∀ k, kvGet st2 k = if sm.keyInBucket k then none else kvGet sm.store k) ∧
    (c.hasBucket = true → redisPlain c.pfx = true →
      ∃ db2, RedisClient.clear db c = Except.ok db2 ∧
        ∀ k, kvGet db2 k = if c.keyInBucket k then none else kvGet db k) := by
  refine ⟨fun h => ?_, fun h => ?_, fun h => ?_, fun h hplain => ?_⟩
  · simp [SharedMemory.clear, h]
  · simp [RedisClient.clear, h]
  · refine ⟨(kvKeys sm.store |>.filter (fun k => sm.keyInBucket k)).foldl
        (fun st k => kvDelete st k) sm.store, by simp [SharedMemory.clear, h], fun k => ?_⟩
    rw [kvGet_foldl_kvDelete _ sm.store hnd k]
    by_cases hin : sm.keyInBucket k = true
    · by_cases hmem : k ∈ kvKeys sm.store
      · simp [List.mem_filter, hin, hmem]
      · simp [List.mem_filter, hmem, hin, kvGet_not_mem sm.store k hmem]
    · have hin' : sm.keyInBucket k = false := by
        cases hb : sm.keyInBucket k
        · rfl
        · exact absurd hb hin
      simp [List.mem_filter, hin']
  · refine ⟨db.filter (fun p => !(redisMatch (c.pfx ++ "*") p.1)),
      by simp [RedisClient.clear, h], fun k => ?_⟩
    rw [kvGet_filter_not (fun kk => redisMatch (c.pfx ++ "*") kk) db k]
    rw [redisMatch_pfx_star c.pfx k hplain]
    simp [RedisClient.keyInBucket, h, strPrefix]

/-- Witness for `clear_behaviour` at a concrete store, database and
bucket. -/
theorem clear_behaviour_witness :
    (kvKeys (SharedMemory.mk (some "t") [("t:a", [1]), ("x:b", [2])]).store).Nodup ∧
    (((SharedMemory.mk (some "t") [("t:a", [1]), ("x:b", [2])]).hasBucket = false →
      (SharedMemory.mk (some "t") [("t:a", [1]), ("x:b", [2])]).clear
        = Except.error PyErr.valueError) ∧
     ((RedisClient.mk (some "t")).hasBucket = false →
      RedisClient.clear [("t:a", [1]), ("x:b", [2])] ⟨some "t"⟩
        = Except.error PyErr.valueError) ∧
     ((SharedMemory.mk (some "t") [("t:a", [1]), ("x:b", [2])]).hasBucket = true →
      ∃ st2, (SharedMemory.mk (some "t") [("t:a", [1]), ("x:b", [2])]).clear
          = Except.ok ⟨(SharedMemory.mk (some "t") [("t:a", [1]), ("x:b", [2])]).bucket, st2⟩ ∧
        ∀ k, kvGet st2 k
          = if (SharedMemory.mk (some "t") [("t:a", [1]), ("x:b", [2])]).keyInBucket k
            then none else kvGet [("t:a", [1]), ("x:b", [2])] k) ∧
     ((RedisClient.mk (some "t")).hasBucket = true →
      redisPlain (RedisClient.pfx ⟨some "t"⟩) = true →
      ∃ db2, RedisClient.clear [("t:a", [1]), ("x:b", [2])] ⟨some "t"⟩ = Except.ok db2 ∧
        ∀ k, kvGet db2 k
          = if RedisClient.keyInBucket ⟨some "t"⟩ k
            then none else kvGet [("t:a", [1]), ("x:b", [2])] k)) :=
  ⟨by decide,
    clear_behaviour ⟨some "t", [("t:a", [1]), ("x:b", [2])]⟩
      [("t:a", [1]), ("x:b", [2])] ⟨some "t"⟩ (by decide)⟩

/-- C8 (counterexample): buckets `"b:c"` and `"b"` are distinct, yet the
key `"k"` stored through the `"b:c"` client is yielded (as `"c:k"`) by
the `"b"` client's `keys()`, and the underlying stored key `"b:c:k"`
belongs to bucket `"b:c"`. -/
theorem bucket_isolation_nested_leak :
    RedisClient.keys (RedisClient.set pyE [] ⟨some "b:c"⟩ "k" (PyVal.int 1)) ⟨some "b"⟩
      = ["c:k"] ∧
    RedisClient.keyInBucket ⟨some "b:c"⟩ (RedisClient.rKey ⟨some "b"⟩ "c:k") = true := by
  constructor <;> decide

/-- C8 (amended): for distinct truthy buckets `A`, `B` on the same redis
database, a `set` through `A` never changes what `B.get` returns for the
same key name; and whenever neither bucket prefix is a prefix of the
other and `B`'s prefix is free of glob metacharacters, every name
yielded by `B.keys()` comes from a stored key that does not belong to
bucket `A`. -/
theorem bucket_isolation (E : PyVal → Bytes) (D : Bytes → PyVal) (db : KVStore)
    (sA sB : String) (hA : sA ≠ "") (hB : sB ≠ "") (hAB : sA ≠ sB)
    (k k' : String) (v : PyVal) (d : PyVal) :
    (RedisClient.get D (RedisClient.set E db ⟨some sA⟩ k v) ⟨some sB⟩ k d
      = RedisClient.get D db ⟨some sB⟩ k d) ∧
    (redisPlain (RedisClient.pfx ⟨some sB⟩) = true →
      strPrefix (RedisClient.pfx ⟨some sA⟩) (RedisClient.pfx ⟨some sB⟩) = false →
      strPrefix (RedisClient.pfx ⟨some sB⟩) (RedisClient.pfx ⟨some sA⟩) = false →
      k' ∈ RedisClient.keys db ⟨some sB⟩ →
        RedisClient.rKey ⟨some sB⟩ k' ∈ kvKeys db ∧
        RedisClient.keyInBucket ⟨some sA⟩ (RedisClient.rKey ⟨some sB⟩ k') = false) := by
  have hpA : RedisClient.pfx ⟨some sA⟩ = sA ++ ":" := by
    simp [RedisClient.pfx, hA]
  have hpB : RedisClient.pfx ⟨some sB⟩ = sB ++ ":" := by
    simp [RedisClient.pfx, hB]
  constructor
  · have hkeys : RedisClient.rKey ⟨some sA⟩ k ≠ RedisClient.rKey ⟨some sB⟩ k := by
      intro hEq
      apply hAB
      have hdata : sA.data ++ (':' :: k.data) = sB.data ++ (':' :: k.data) := by
        have h2 := congrArg String.data hEq
        simpa [RedisClient.rKey, hpA, hpB] using h2
      exact String.ext (List.append_inj_left' hdata rfl)
    simp only [RedisClient.get, RedisClient.set]
    rw [kvGet_kvSet db (RedisClient.rKey ⟨some sA⟩ k) (RedisClient.rKey ⟨some sB⟩ k) (E v)]
    rw [if_neg hkeys]
  · intro hplain hABp hBAp hmem
    simp only [RedisClient.keys, List.mem_filterMap] at hmem
    obtain ⟨full, hfull, hcond⟩ := hmem
    have hpat : RedisClient.keyPattern ⟨some sB⟩ = RedisClient.pfx ⟨some sB⟩ ++ "*" := by
      simp [RedisClient.keyPattern, RedisClient.hasBucket, hB]
    rw [hpat, redisMatch_pfx_star _ _ hplain] at hcond
    by_cases hm : (RedisClient.pfx ⟨some sB⟩).data.isPrefixOf full.data = true
    swap
    · rw [if_neg (by simpa using hm)] at hcond
      simp at hcond
    rw [if_pos (by simpa using hm)] at hcond
    have hpref : (RedisClient.pfx ⟨some sB⟩).data <+: full.data := by
      simpa using hm
    obtain ⟨t, ht⟩ := hpref
    have hstrip : RedisClient.keyWithoutBucket ⟨some sB⟩ full = String.mk t := by
      simp only [RedisClient.keyWithoutBucket, strPrefix, hm, if_pos]
      simp only [strDrop]
      congr 1
      rw [show (RedisClient.pfx ⟨some sB⟩).length
          = (RedisClient.pfx ⟨some sB⟩).data.length from rfl]
      rw [← ht, List.drop_left]
    have hk' : k' = String.mk t := by
      rw [hstrip] at hcond
      exact ((Option.some.injEq _ _).mp hcond).symm
    have hdataEq : (RedisClient.rKey ⟨some sB⟩ k').data = full.data := by
      simp only [RedisClient.rKey, hk', String.data_append]
      exact ht
    have hfullEq : RedisClient.rKey ⟨some sB⟩ k' = full := String.ext hdataEq
    refine ⟨by rw [hfullEq]; exact hfull, ?_⟩
    simp only [RedisClient.keyInBucket, RedisClient.hasBucket]
    rw [if_pos (by simp [hA])]
    cases hsp : strPrefix (RedisClient.pfx ⟨some sA⟩) (RedisClient.rKey ⟨some sB⟩ k') with
    | false => rfl
    | true =>
      exfalso
      have hApref : (RedisClient.pfx ⟨some sA⟩).data <+: full.data := by
        have h3 : (RedisClient.pfx ⟨some sA⟩).data.isPrefixOf
            (RedisClient.rKey ⟨some sB⟩ k').data = true := hsp
        rw [hdataEq] at h3
        simpa using h3
      have hBpref : (RedisClient.pfx ⟨some sB⟩).data <+: full.data := ⟨t, ht⟩
      rcases List.prefix_or_prefix_of_prefix hApref hBpref with h4 | h4
      · have : strPrefix (RedisClient.pfx ⟨some sA⟩) (RedisClient.pfx ⟨some sB⟩) = true := by
          simpa [strPrefix] using h4
        rw [this] at hABp
        exact Bool.true_eq_false.mp hABp
      · have : strPrefix (RedisClient.pfx ⟨some sB⟩) (RedisClient.pfx ⟨some sA⟩) = true := by
          simpa [strPrefix] using h4
        rw [this] at hBAp
        exact Bool.true_eq_false.mp hBAp

/-- Witness for `bucket_isolation` with buckets `"u"` and `"v"` over a
concrete database. -/
theorem bucket_isolation_witness :
    ((("u" : String) ≠ "") ∧ (("v" : String) ≠ "") ∧ (("u" : String) ≠ "v")) ∧
    ((RedisClient.get pyD (RedisClient.set pyE [("v:x", [1])] ⟨some "u"⟩ "k" (PyVal.int 1))
        ⟨some "v"⟩ "k" (PyVal.int 7)
      = RedisClient.get pyD [("v:x", [1])] ⟨some "v"⟩ "k" (PyVal.int 7)) ∧
     (redisPlain (RedisClient.pfx ⟨some "v"⟩) = true →
      strPrefix (RedisClient.pfx ⟨some "u"⟩) (RedisClient.pfx ⟨some "v"⟩) = false →
      strPrefix (RedisClient.pfx ⟨some "v"⟩) (RedisClient.pfx ⟨some "u"⟩) = false →
      "x" ∈ RedisClient.keys [("v:x", [1])] ⟨some "v"⟩ →
        RedisClient.rKey ⟨some "v"⟩ "x" ∈ kvKeys [("v:x", [1])] ∧
        RedisClient.keyInBucket ⟨some "u"⟩ (RedisClient.rKey ⟨some "v"⟩ "x") = false)) :=
  ⟨⟨by decide, by decide, by decide⟩,
    bucket_isolation pyE pyD [("v:x", [1])] "u" "v" (by decide) (by decide) (by decide)
      "k" "x" (PyVal.int 1) (PyVal.int 7)⟩

/-! ## Concurrent `setdefault`

`SharedMemory.setdefault` is implemented client-side as a `has_key`
probe followed by either a `get` or a `set`; each of those is one
atomic manager round trip, but nothing serializes the whole sequence
(the manager-side `_SharedKVStore.setdefault`, which would be atomic, is
not used).  `RedisSharedMemory.setdefault` has the same
`EXISTS`-then-`GET`/`SET` shape.  Two concurrent callers are modelled as
threads of micro-operations interleaved by an explicit schedule; `key`
is the already-prefixed key (both callers address the same key of the
same instance). -/

/-- The control point of one caller inside `setdefault`. -/
inductive SDPhase where
  | start : SDPhase
  | checked : Bool → SDPhase
  | done : PyVal → SDPhase
  deriving DecidableEq

/-- One caller of `setdefault(key, value)`. -/
structure SDThread where
  key : String
  value : PyVal
  phase : SDPhase
  deriving DecidableEq

/-- One atomic micro-operation of `SharedMemory.setdefault`: the
`has_key` probe, then either the `get` (hit path; a concurrently removed
key makes `loads(None)` return Python `None`) or the `set` (miss path,
returning `loads(dumps(value))`). -/
def sdStep (E : PyVal → Bytes) (D : Bytes → PyVal) (st : KVStore) (t : SDThread) :
    KVStore × SDThread :=
  match t.phase with
  | SDPhase.start => (st, ⟨t.key, t.value, SDPhase.checked (kvHasKey st t.key)⟩)
  | SDPhase.checked true =>
      (st, ⟨t.key, t.value,
        SDPhase.done (match kvGet st t.key with
          | some b => D b
          | none => PyVal.pynone)⟩)
  | SDPhase.checked false =>
      (kvSet st t.key (E t.value), ⟨t.key, t.value, SDPhase.done (D (E t.value))⟩)
  | SDPhase.done _ => (st, t)

/-- Shared store plus the two concurrent callers. -/
structure SDConfig where
  store : KVStore
  threadA : SDThread
  threadB : SDThread
  deriving DecidableEq

/-- Run the two callers under a schedule: `true` steps caller A,
`false` steps caller B. -/
def sdRun (E : PyVal → Bytes) (D : Bytes → PyVal) : List Bool → SDConfig → SDConfig
  | [], cfg => cfg
  | b :: rest, cfg =>
    let cfg2 :=
      if b then
        let r := sdStep E D cfg.store cfg.threadA
        SDConfig.mk r.1 r.2 cfg.threadB
      else
        let r := sdStep E D cfg.store cfg.threadB
        SDConfig.mk r.1 cfg.threadA r.2
    sdRun E D rest cfg2

/-- The value a finished caller returned. -/
def sdRet (t : SDThread) : Option PyVal :=
  match t.phase with
  | SDPhase.done r => some r
  | _ => none

/-- Initial configuration: key absent, both callers about to run
`setdefault(k, ·)` with their own value. -/
def sdInit (k : String) (v1 v2 : PyVal) : SDConfig :=
  ⟨[], ⟨k, v1, SDPhase.start⟩, ⟨k, v2, SDPhase.start⟩⟩

/-- C5 (counterexample): interleaving the two probes before the two
writes, caller A returns `1`, caller B returns `2`, and the stored value
is B's — the callers do not agree on a single winner. -/
theorem setdefault_race_two_winners :
    sdRet (sdRun pyE pyD [true, false, true, false]
        (sdInit "x" (PyVal.int 1) (PyVal.int 2))).threadA = some (PyVal.int 1) ∧
    sdRet (sdRun pyE pyD [true, false, true, false]
        (sdInit "x" (PyVal.int 1) (PyVal.int 2))).threadB = some (PyVal.int 2) ∧
    kvGet (sdRun pyE pyD [true, false, true, false]
        (sdInit "x" (PyVal.int 1) (PyVal.int 2))).store "x" = some (pyE (PyVal.int 2)) ∧
    PyVal.int 1 ≠ PyVal.int 2 := by
  refine ⟨rfl, rfl, rfl, by decide⟩

/-- C5 (amended): `setdefault` is check-then-act in both backends, so
under the interleaved schedule both callers observe the key absent, each
returns its own value, and the last writer's value stays stored — the
callers can disagree on the winner.  When one call completes before the
other starts, the claimed behaviour holds: the first caller's value is
stored and both callers return it. -/
theorem setdefault_check_then_act (E : PyVal → Bytes) (D : Bytes → PyVal)
    (hrt : ∀ v, D (E v) = v) (k : String) (v1 v2 : PyVal) :
    (sdRet (sdRun E D [true, false, true, false] (sdInit k v1 v2)).threadA = some v1 ∧
     sdRet (sdRun E D [true, false, true, false] (sdInit k v1 v2)).threadB = some v2 ∧
     kvGet (sdRun E D [true, false, true, false] (sdInit k v1 v2)).store k = some (E v2)) ∧
    (sdRet (sdRun E D [true, true, false, false] (sdInit k v1 v2)).threadA = some v1 ∧
     sdRet (sdRun E D [true, true, false, false] (sdInit k v1 v2)).threadB = some v1 ∧
     kvGet (sdRun E D [true, true, false, false] (sdInit k v1 v2)).store k = some (E v1)) := by
  constructor
  · simp [sdRun, sdInit, sdStep, sdRet, kvHasKey, kvGet, kvSet, hrt]
  · simp [sdRun, sdInit, sdStep, sdRet, kvHasKey, kvGet, kvSet, hrt]

/-- Witness for `setdefault_check_then_act` at the concrete serializer
and values `1`, `2`. -/
theorem setdefault_check_then_act_witness :
    (∀ v, pyD (pyE v) = v) ∧
    ((sdRet (sdRun pyE pyD [true, false, true, false]
        (sdInit "x" (PyVal.int 1) (PyVal.int 2))).threadA = some (PyVal.int 1) ∧
      sdRet (sdRun pyE pyD [true, false, true, false]
        (sdInit "x" (PyVal.int 1) (PyVal.int 2))).threadB = some (PyVal.int 2) ∧
      kvGet (sdRun pyE pyD [true, false, true, false]
        (sdInit "x" (PyVal.int 1) (PyVal.int 2))).store "x" = some (pyE (PyVal.int 2))) ∧
     (sdRet (sdRun pyE pyD [true, true, false, false]
        (sdInit "x" (PyVal.int 1) (PyVal.int 2))).threadA = some (PyVal.int 1) ∧
      sdRet (sdRun pyE pyD [true, true, false, false]
        (sdInit "x" (PyVal.int 1) (PyVal.int 2))).threadB = some (PyVal.int 1) ∧
      kvGet (sdRun pyE pyD [true, true, false, false]
        (sdInit "x" (PyVal.int 1) (PyVal.int 2))).store "x" = some (pyE (PyVal.int 1)))) :=
  ⟨pyD_pyE, setdefault_check_then_act pyE pyD pyD_pyE "x" (PyVal.int 1) (PyVal.int 2)⟩

/-! ## Instance lifecycle of the local backend

`SharedMemory.__init__` starts its own `KVManager` process and creates a
brand-new `_SharedKVStore` inside it.  The collection of manager
processes alive in the system is modelled as a list of stores; a
constructed instance holds the index of its own manager plus its bucket,
and every operation of the instance reaches only its own manager's
store. -/

abbrev ManagerWorld := List KVStore

/-- A constructed `SharedMemory` instance: the manager process it owns
and its bucket. -/
structure SMRef where
  idx : Nat
  bucket : Option String
  deriving DecidableEq

/-- `SharedMemory(bucket=...)`: starting the manager appends a fresh
empty `_SharedKVStore` to the world; the instance points at it. -/
def newSharedMemory (w : ManagerWorld) (bucket : Option String) : ManagerWorld × SMRef :=
  (w ++ [[]], ⟨w.length, bucket⟩)

/-- The view of an instance over the world: its bucket plus its own
manager's store. -/
def SMRef.toSM (w : ManagerWorld) (r : SMRef) : SharedMemory :=
  ⟨r.bucket, w.getD r.idx []⟩

/-- `set` through an instance: only its own manager's store changes. -/
def SMRef.setW (E : PyVal → Bytes) (w : ManagerWorld) (r : SMRef) (k : String) (v : PyVal) :
    ManagerWorld :=
  w.set r.idx (SharedMemory.set E (r.toSM w) k v).store

/-- `get` through an instance. -/
def SMRef.getW (D : Bytes → PyVal) (w : ManagerWorld) (r : SMRef) (k : String)
    (default : PyVal) : PyVal :=
  SharedMemory.get D (r.toSM w) k default

/-- `keys()` through an instance. -/
def SMRef.keysW (w : ManagerWorld) (r : SMRef) : List String :=
  SharedMemory.keysOf (r.toSM w)

theorem listGetD_append (w : List KVStore) (x : KVStore) (rest : List KVStore) :
    (w ++ x :: rest).getD w.length [] = x := by
  induction w with
  | nil => rfl
  | cons a w ih => simpa using ih

theorem listGetD_set_ne (w : List KVStore) (i j : Nat) (y : KVStore) (h : i ≠ j) :
    (w.set i y).getD j [] = w.getD j [] := by
  induction w generalizing i j with
  | nil => simp
  | cons a w ih =>
    cases i with
    | zero =>
      cases j with
      | zero => exact absurd rfl h
      | succ j => simp [List.set]
    | succ i =>
      cases j with
      | zero => simp [List.set]
      | succ j =>
        simp only [List.set, List.getD_cons_succ]
        exact ih i j (fun hh => h (by rw [hh]))

/-- C10: each `SharedMemory()` construction starts its own manager with
a brand-new empty `_SharedKVStore`: a fresh instance's `keys()` is
empty, two independently constructed instances (even with the same
bucket) own different managers, and a `set` through one leaves the
other's store, `get` and `keys()` unchanged. -/
theorem sharedMemory_instances_independent (E : PyVal → Bytes) (D : Bytes → PyVal)
    (w : ManagerWorld) (b1 b2 : Option String) (w1 w2 : ManagerWorld) (r1 r2 : SMRef)
    (h1 : newSharedMemory w b1 = (w1, r1)) (h2 : newSharedMemory w1 b2 = (w2, r2))
    (k k2 : String) (v d : PyVal) :
    SMRef.keysW w2 r1 = [] ∧
    SMRef.keysW w2 r2 = [] ∧
    r1.idx ≠ r2.idx ∧
    SMRef.toSM (SMRef.setW E w2 r1 k v) r2 = SMRef.toSM w2 r2 ∧
    SMRef.toSM (SMRef.setW E w2 r2 k v) r1 = SMRef.toSM w2 r1 ∧
    SMRef.getW D (SMRef.setW E w2 r1 k v) r2 k2 d = SMRef.getW D w2 r2 k2 d ∧
    SMRef.keysW (SMRef.setW E w2 r1 k v) r2 = SMRef.keysW w2 r2 := by
  simp only [newSharedMemory] at h1 h2
  injection h1 with hw1 hr1
  injection h2 with hw2 hr2
  subst hw1; subst hr1; subst hw2; subst hr2
  have hs1 : ((w ++ [[]]) ++ [[]]).getD w.length [] = [] := by
    rw [List.append_assoc]
    exact listGetD_append w [] [[]]
  have hs2 : ((w ++ [[]]) ++ [[]]).getD (w ++ [[]]).length [] = [] :=
    listGetD_append (w ++ [[]]) [] []
  have hidx : w.length ≠ (w ++ [[]]).length := by simp
  have hframe1 : SMRef.toSM (SMRef.setW E ((w ++ [[]]) ++ [[]]) ⟨w.length, b1⟩ k v)
      ⟨(w ++ [[]]).length, b2⟩ = SMRef.toSM ((w ++ [[]]) ++ [[]]) ⟨(w ++ [[]]).length, b2⟩ := by
    simp only [SMRef.toSM, SMRef.setW]
    rw [listGetD_set_ne _ _ _ _ hidx]
  have hframe2 : SMRef.toSM (SMRef.setW E ((w ++ [[]]) ++ [[]]) ⟨(w ++ [[]]).length, b2⟩ k v)
      ⟨w.length, b1⟩ = SMRef.toSM ((w ++ [[]]) ++ [[]]) ⟨w.length, b1⟩ := by
    simp only [SMRef.toSM, SMRef.setW]
    rw [listGetD_set_ne _ _ _ _ (fun hh => hidx (Eq.symm hh))]
  refine ⟨?_, ?_, by simp, hframe1, hframe2, ?_, ?_⟩
  · simp only [SMRef.keysW, SMRef.toSM]
    rw [hs1]
    rfl
  · simp only [SMRef.keysW, SMRef.toSM]
    rw [hs2]
    rfl
  · simp only [SMRef.getW]
    rw [hframe1]
  · simp only [SMRef.keysW]
    rw [hframe1]

/-- Witness for `sharedMemory_instances_independent`: two instances with
the same bucket constructed from an empty world. -/
theorem sharedMemory_instances_independent_witness :
    (newSharedMemory [] (some "t") = ([[]], ⟨0, some "t"⟩) ∧
     newSharedMemory [[]] (some "t") = ([[], []], ⟨1, some "t"⟩)) ∧
    (SMRef.keysW [[], []] ⟨0, some "t"⟩ = [] ∧
     SMRef.keysW [[], []] ⟨1, some "t"⟩ = [] ∧
     (SMRef.idx ⟨0, some "t"⟩) ≠ (SMRef.idx ⟨1, some "t"⟩) ∧
     SMRef.toSM (SMRef.setW pyE [[], []] ⟨0, some "t"⟩ "k" (PyVal.int 1)) ⟨1, some "t"⟩
       = SMRef.toSM [[], []] ⟨1, some "t"⟩ ∧
     SMRef.toSM (SMRef.setW pyE [[], []] ⟨1, some "t"⟩ "k" (PyVal.int 1)) ⟨0, some "t"⟩
       = SMRef.toSM [[], []] ⟨0, some "t"⟩ ∧
     SMRef.getW pyD (SMRef.setW pyE [[], []] ⟨0, some "t"⟩ "k" (PyVal.int 1))
         ⟨1, some "t"⟩ "k" (PyVal.int 7)
       = SMRef.getW pyD [[], []] ⟨1, some "t"⟩ "k" (PyVal.int 7) ∧
     SMRef.keysW (SMRef.setW pyE [[], []] ⟨0, some "t"⟩ "k" (PyVal.int 1)) ⟨1, some "t"⟩
       = SMRef.keysW [[], []] ⟨1, some "t"⟩) :=
  ⟨⟨by decide, by decide⟩,
    sharedMemory_instances_independent pyE pyD [] (some "t") (some "t") [[]] [[], []]
      ⟨0, some "t"⟩ ⟨1, some "t"⟩ (by decide) (by decide) "k" "k" (PyVal.int 1) (PyVal.int 7)⟩

/-! ## Pub/sub dispatch and listener lifecycle

Both `RedisIPC` and `WebSocketIPC` keep `self.callbacks`, a
`defaultdict(list)` from channel name to callbacks in registration
order; `subscribe` appends.  Callbacks are identified by numbers; a
subscription history is the list of `subscribe(channel, callback)`
calls in order.  `listen()` is a loop around a blocking read: its
per-iteration body is embedded as a function from the read's outcome to
the invoked callbacks plus whether the loop terminates. -/

abbrev Callbacks := List (String × List Nat)

/-- `self.callbacks[channel].append(cb)` on a `defaultdict(list)`. -/
def cbAdd : Callbacks → String → Nat → Callbacks
  | [], ch, cb => [(ch, [cb])]
  | (ch', cbs) :: rest, ch, cb =>
    if ch' = ch then (ch', cbs ++ [cb]) :: rest else (ch', cbs) :: cbAdd rest ch cb

/-- `self.callbacks[channel]` (empty when never subscribed). -/
def cbGet : Callbacks → String → List Nat
  | [], _ => []
  | (ch', cbs) :: rest, ch => if ch' = ch then cbs else cbGet rest ch

/-- `channel in self.callbacks`. -/
def cbHas : Callbacks → String → Bool
  | [], _ => false
  | (ch', _) :: rest, ch => ch' = ch || cbHas rest ch

/-- The callback table after a history of `subscribe` calls. -/
def subscribeAll (hist : List (String × Nat)) : Callbacks :=
  hist.foldl (fun cbs p => cbAdd cbs p.1 p.2) []

/-- The callbacks registered for a channel by a history, in registration
order. -/
def registeredFor (hist : List (String × Nat)) (ch : String) : List Nat :=
  (hist.filter (fun p => decide (p.1 = ch))).map Prod.snd

/-- A frame delivered by `self.pubsub.listen()`: redis message type,
channel and payload bytes. -/
structure RedisMsg where
  msgType : String
  channel : String
  data : Bytes
  deriving DecidableEq

/-- The body of `RedisIPC.listen` for one inbound frame: only frames of
type `'message'` are dispatched; every callback of the channel is
invoked, in order, with the deserialized payload. -/
def RedisIPC.dispatch (D : Bytes → PyVal) (cbs : Callbacks) (m : RedisMsg) :
    List (Nat × PyVal) :=
  if m.msgType = "message" then
    if cbHas cbs m.channel then (cbGet cbs m.channel).map (fun cb => (cb, D m.data))
    else []
  else []

/-- A broadcast frame read by `WebSocketIPC.listen`: channel plus the
already-unpickled message. -/
structure WsFrame where
  channel : String
  message : PyVal
  deriving DecidableEq

/-- The body of `WebSocketIPC.listen` for one inbound frame. -/
def WebSocketIPC.dispatch (cbs : Callbacks) (f : WsFrame) : List (Nat × PyVal) :=
  if cbHas cbs f.channel then (cbGet cbs f.channel).map (fun cb => (cb, f.message))
  else []

theorem cbGet_cbAdd (cbs : Callbacks) (ch0 ch : String) (cb : Nat) :
    cbGet (cbAdd cbs ch0 cb) ch
      = if ch0 = ch then cbGet cbs ch ++ [cb] else cbGet cbs ch := by
  induction cbs with
  | nil => by_cases h : ch0 = ch <;> simp [cbAdd, cbGet, h]
  | cons p rest ih =>
    obtain ⟨ch1, cbs1⟩ := p
    by_cases h1 : ch1 = ch0
    · subst h1
      by_cases h2 : ch1 = ch <;> simp [cbAdd, cbGet, h2]
    · by_cases h2 : ch1 = ch
      · subst h2
        have h3 : ¬ ch0 = ch1 := fun hh => h1 (Eq.symm hh)
        simp [cbAdd, cbGet, h1, h3]
      · simp [cbAdd, cbGet, h1, h2, ih]

theorem cbHas_cbAdd (cbs : Callbacks) (ch0 ch : String) (cb : Nat) :
    cbHas (cbAdd cbs ch0 cb) ch = ((ch0 = ch : Bool) || cbHas cbs ch) := by
  induction cbs with
  | nil => simp [cbAdd, cbHas]
  | cons p rest ih =>
    obtain ⟨ch1, cbs1⟩ := p
    by_cases h1 : ch1 = ch0
    · subst h1
      simp [cbAdd, cbHas]
    · simp only [cbAdd, h1, if_false, cbHas, ih]
      cases h2 : (decide (ch1 = ch)) <;> simp [h2]

theorem cbGet_foldl (hist : List (String × Nat)) :
    ∀ (cbs : Callbacks) (ch : String),
      cbGet (hist.foldl (fun c p => cbAdd c p.1 p.2) cbs) ch
        = cbGet cbs ch ++ registeredFor hist ch := by
  induction hist with
  | nil => intro cbs ch; simp [registeredFor]
  | cons p rest ih =>
    intro cbs ch
    obtain ⟨ch0, cb0⟩ := p
    simp only [List.foldl_cons]
    rw [ih (cbAdd cbs ch0 cb0) ch, cbGet_cbAdd]
    by_cases h : ch0 = ch
    · subst h
      simp [registeredFor, List.filter_cons]
    · have h2 : (decide ((ch0, cb0).1 = ch)) = false := by simpa using h
      simp [registeredFor, List.filter_cons, h, h2]

theorem cbGet_subscribeAll (hist : List (String × Nat)) (ch : String) :
    cbGet (subscribeAll hist) ch = registeredFor hist ch := by
  rw [subscribeAll, cbGet_foldl hist [] ch]
  rfl

theorem cbHas_foldl (hist : List (String × Nat)) :
    ∀ (cbs : Callbacks) (ch : String),
      cbHas (hist.foldl (fun c p => cbAdd c p.1 p.2) cbs) ch
        = (cbHas cbs ch || hist.any (fun p => decide (p.1 = ch))) := by
  induction hist with
  | nil => intro cbs ch; simp
  | cons p rest ih =>
    intro cbs ch
    obtain ⟨ch0, cb0⟩ := p
    simp only [List.foldl_cons]
    rw [ih (cbAdd cbs ch0 cb0) ch, cbHas_cbAdd]
    simp only [List.any_cons]
    cases h1 : (decide (ch0 = ch)) <;> simp [h1]

theorem registeredFor_nil_of_not_has (hist : List (String × Nat)) (ch : String)
    (h : cbHas (subscribeAll hist) ch = false) : registeredFor hist ch = [] := by
  have h2 : (cbHas [] ch || hist.any (fun p => decide (p.1 = ch))) = false := by
    rw [← cbHas_foldl hist [] ch]
    exact h
  have h3 : hist.any (fun p => decide (p.1 = ch)) = false := by
    simpa [cbHas] using h2
  simp only [registeredFor]
  rw [List.filter_eq_nil_iff.mpr, List.map_nil]
  intro p hp
  have h4 := (List.any_eq_false.mp h3) p hp
  simpa using h4

/-- C9: after any history of `subscribe` calls, delivering a message on
channel `ch` invokes exactly the callbacks registered for `ch`, each
once, in registration order, each with the decoded payload, on both
backends; a redis control frame (type `'subscribe'`) dispatches nothing;
and no invoked callback is one that the history registered only for
other channels. -/
theorem pubsub_dispatch_order (D : Bytes → PyVal) (hist : List (String × Nat))
    (ch : String) (b : Bytes) (msg : PyVal) :
    (RedisIPC.dispatch D (subscribeAll hist) ⟨"message", ch, b⟩
      = (registeredFor hist ch).map (fun cb => (cb, D b))) ∧
    (RedisIPC.dispatch D (subscribeAll hist) ⟨"subscribe", ch, b⟩ = []) ∧
    (WebSocketIPC.dispatch (subscribeAll hist) ⟨ch, msg⟩
      = (registeredFor hist ch).map (fun cb => (cb, msg))) ∧
    (∀ cb x, (cb, x) ∈ RedisIPC.dispatch D (subscribeAll hist) ⟨"message", ch, b⟩ →
      cb ∈ registeredFor hist ch) ∧
    (∀ cb x, (cb, x) ∈ WebSocketIPC.dispatch (subscribeAll hist) ⟨ch, msg⟩ →
      cb ∈ registeredFor hist ch) := by
  have hget := cbGet_subscribeAll hist ch
  have hred : RedisIPC.dispatch D (subscribeAll hist) ⟨"message", ch, b⟩
      = (registeredFor hist ch).map (fun cb => (cb, D b)) := by
    simp only [RedisIPC.dispatch, if_pos rfl]
    cases hh : cbHas (subscribeAll hist) ch
    · simp [registeredFor_nil_of_not_has hist ch hh]
    · simp [hget]
  have hws : WebSocketIPC.dispatch (subscribeAll hist) ⟨ch, msg⟩
      = (registeredFor hist ch).map (fun cb => (cb, msg)) := by
    simp only [WebSocketIPC.dispatch]
    cases hh : cbHas (subscribeAll hist) ch
    · simp [registeredFor_nil_of_not_has hist ch hh]
    · simp [hget]
  refine ⟨hred, by simp [RedisIPC.dispatch], hws, ?_, ?_⟩
  · intro cb x hmem
    rw [hred] at hmem
    simp only [List.mem_map] at hmem
    obtain ⟨cb', hcb', heq⟩ := hmem
    cases heq
    exact hcb'
  · intro cb x hmem
    rw [hws] at hmem
    simp only [List.mem_map] at hmem
    obtain ⟨cb', hcb', heq⟩ := hmem
    cases heq
    exact hcb'

/-- Outcome of one blocking read inside `listen()`: a frame, or the
failure raised once the underlying connection has been closed. -/
inductive ReadRes (F : Type) where
  | frame : F → ReadRes F
  | connError : ReadRes F

/-- One iteration of `RedisIPC.listen`'s `for message_dict in
self.pubsub.listen()` loop: a frame is dispatched and the loop
continues; a failing read has no handler, so the exception propagates
and the loop exits. -/
def RedisIPC.listenIter (D : Bytes → PyVal) (cbs : Callbacks) :
    ReadRes RedisMsg → List (Nat × PyVal) × Bool
  | ReadRes.frame m => (RedisIPC.dispatch D cbs m, false)
  | ReadRes.connError => ([], true)

/-- One iteration of `WebSocketIPC.listen`'s `while True` loop: a frame
is dispatched; a failing read is caught by the `except Exception`
handler, logged, and the loop continues — no outcome terminates it. -/
def WebSocketIPC.listenIter (cbs : Callbacks) :
    ReadRes WsFrame → List (Nat × PyVal) × Bool
  | ReadRes.frame f => (WebSocketIPC.dispatch cbs f, false)
  | ReadRes.connError => ([], false)

/-- Whether a listen loop built from the given per-iteration body has
exited within `n` iterations, reading from the stream `reads`. -/
def loopExitsWithin {F : Type} (iter : ReadRes F → List (Nat × PyVal) × Bool)
    (reads : Nat → ReadRes F) : Nat → Bool
  | 0 => false
  | n + 1 => (iter (reads 0)).2 || loopExitsWithin iter (fun i => reads (i + 1)) n

/-- C4 (counterexample): with the connection closed (every read fails),
a running `WebSocketIPC.listen` loop has still not exited after 100
iterations — the read failure is swallowed and the loop spins. -/
theorem ws_listen_not_exited_after_close :
    loopExitsWithin (WebSocketIPC.listenIter []) (fun _ => ReadRes.connError) 100 = false := by
  decide

/-- C4 (amended): once a blocking read fails, `RedisIPC.listen` exits
(the exception propagates out of its `for` loop), but
`WebSocketIPC.listen` never exits under any stream of read outcomes:
its `except Exception` handler catches the failure and the `while True`
loop continues. -/
theorem listen_termination (D : Bytes → PyVal) (cbs : Callbacks)
    (reads1 : Nat → ReadRes RedisMsg) (reads2 : Nat → ReadRes WsFrame) (n i : Nat)
    (hfail : reads1 i = ReadRes.connError) (hlt : i < n) :
    loopExitsWithin (RedisIPC.listenIter D cbs) reads1 n = true ∧
    loopExitsWithin (WebSocketIPC.listenIter cbs) reads2 n = false := by
  have hws : ∀ (m : Nat) (r : Nat → ReadRes WsFrame),
      loopExitsWithin (WebSocketIPC.listenIter cbs) r m = false := by
    intro m
    induction m with
    | zero => intro r; rfl
    | succ m ih =>
      intro r
      have hbody : (WebSocketIPC.listenIter cbs (r 0)).2 = false := by
        cases r 0 <;> rfl
      simp [loopExitsWithin, hbody, ih (fun j => r (j + 1))]
  refine ⟨?_, hws n reads2⟩
  induction n generalizing reads1 i with
  | zero => omega
  | succ n ih =>
    cases i with
    | zero =>
      simp [loopExitsWithin, hfail, RedisIPC.listenIter]
    | succ i =>
      have h5 := ih (fun j => reads1 (j + 1)) i hfail (by omega)
      simp [loopExitsWithin, h5]

/-- Witness for `listen_termination`: the stream that fails from the
first read onwards. -/
theorem listen_termination_witness :
    ((fun _ : Nat => (ReadRes.connError : ReadRes RedisMsg)) 0 = ReadRes.connError ∧
     (0 : Nat) < 3) ∧
    (loopExitsWithin (RedisIPC.listenIter pyD []) (fun _ => ReadRes.connError) 3 = true ∧
     loopExitsWithin (WebSocketIPC.listenIter []) (fun _ => ReadRes.connError) 3 = false) :=
  ⟨⟨rfl, by decide⟩,
    listen_termination pyD [] (fun _ => ReadRes.connError) (fun _ => ReadRes.connError)
      3 0 rfl (by decide)⟩
